import Mathlib

set_option linter.unusedVariables false

/-
Verification of the spatial-transformer core of `lasagne/layers/special.py`
(fork schevalier/Lasagne).

The numeric code is embedded shallowly:

* Real (float32) arithmetic is modelled exactly over `ℚ` for the bulk of the
  pipeline, where every value the claims touch is exactly representable and no
  special values arise.
* For the claims that hinge on IEEE-754 special values (the division by zero in
  `_linspace` when `num == 1`), the same source lines are embedded a second
  time over `EFloat`, an exact-rational model of float arithmetic extended
  with the IEEE special values `+inf`, `-inf`, `nan` (finite arithmetic is
  exact, i.e. rounding is idealised away; signed zero is not modelled).
* Machine integers (`int64` index arithmetic) are modelled as `ℤ`; the index
  magnitudes involved are far below any overflow boundary for any tensor that
  can be materialised, so no wraparound modelling is required.
* Tensors are modelled as functions from (multi-)indices to values; shapes
  are lists of optional sizes (`none` = symbolic/unknown size, as in the host
  library).
-/

/-- Exact model of a float value extended with the IEEE-754 special values.
Finite values are exact rationals (rounding idealised away); signed zero is
not distinguished. -/
inductive EFloat where
  | fin : ℚ → EFloat
  | pinf : EFloat
  | ninf : EFloat
  | nan : EFloat
deriving DecidableEq

/-- IEEE-style negation on `EFloat`. -/
def eneg : EFloat → EFloat
  | .fin a => .fin (-a)
  | .pinf => .ninf
  | .ninf => .pinf
  | .nan => .nan

/-- IEEE-style addition on `EFloat`: finite addition is exact, opposite
infinities give `nan`, `nan` propagates. -/
def eadd : EFloat → EFloat → EFloat
  | .fin a, .fin b => .fin (a + b)
  | .fin _, .pinf => .pinf
  | .pinf, .fin _ => .pinf
  | .fin _, .ninf => .ninf
  | .ninf, .fin _ => .ninf
  | .pinf, .pinf => .pinf
  | .ninf, .ninf => .ninf
  | .pinf, .ninf => .nan
  | .ninf, .pinf => .nan
  | .nan, _ => .nan
  | _, .nan => .nan

/-- Subtraction on `EFloat`, via addition of the negation. -/
def esub (a b : EFloat) : EFloat := eadd a (eneg b)

/-- IEEE-style multiplication on `EFloat`: zero times an infinity is `nan`,
`nan` propagates, signs of infinities follow the sign rule. -/
def emul : EFloat → EFloat → EFloat
  | .fin a, .fin b => .fin (a * b)
  | .fin a, .pinf => if a = 0 then .nan else if 0 < a then .pinf else .ninf
  | .pinf, .fin a => if a = 0 then .nan else if 0 < a then .pinf else .ninf
  | .fin a, .ninf => if a = 0 then .nan else if 0 < a then .ninf else .pinf
  | .ninf, .fin a => if a = 0 then .nan else if 0 < a then .ninf else .pinf
  | .pinf, .pinf => .pinf
  | .ninf, .ninf => .pinf
  | .pinf, .ninf => .ninf
  | .ninf, .pinf => .ninf
  | .nan, _ => .nan
  | _, .nan => .nan

/-- IEEE-style division on `EFloat`: a nonzero finite value divided by zero
gives a signed infinity, zero over zero gives `nan`, infinity over infinity
gives `nan`, `nan` propagates.  (Signed zero is not modelled, so division by
zero behaves as division by positive zero.) -/
def ediv : EFloat → EFloat → EFloat
  | .fin a, .fin b =>
      if b = 0 then (if a = 0 then .nan else if 0 < a then .pinf else .ninf)
      else .fin (a / b)
  | .fin _, .pinf => .fin 0
  | .fin _, .ninf => .fin 0
  | .pinf, .fin a => if 0 ≤ a then .pinf else .ninf
  | .ninf, .fin a => if 0 ≤ a then .ninf else .pinf
  | .pinf, .pinf => .nan
  | .pinf, .ninf => .nan
  | .ninf, .pinf => .nan
  | .ninf, .ninf => .nan
  | .nan, _ => .nan
  | _, .nan => .nan

/-- Float-level embedding of `_linspace` (special.py lines 328-334):
`step = (stop-start)/(num-1)`, result `T.arange(num, dtype='float32')*step + start`,
evaluated with IEEE special-value semantics (finite arithmetic exact).
This gives element `k` of the resulting length-`num` vector. -/
def linspaceF (start stop : ℚ) (num : ℕ) : ℕ → EFloat :=
  fun k =>
    eadd
      (emul (.fin (k : ℚ))
        (ediv (esub (.fin stop) (.fin start)) (esub (.fin (num : ℚ)) (.fin 1))))
      (.fin start)

/-- Float-level embedding of the first (x-coordinate) row of the grid built by
`_meshgrid` (special.py lines 344-359): `x_t` is the matrix product of a
`(height, 1)` column of ones with the `(1, width)` row `_linspace(-1,1,width)`,
flattened row-major, so flat entry `k` is `1 * _linspace(-1,1,width)[k % width]`. -/
def meshgridRow0 (height width : ℕ) (k : ℕ) : EFloat :=
  emul (.fin 1) (linspaceF (-1) 1 width (k % width))

/-- Float-level embedding of the second (y-coordinate) row of the grid built by
`_meshgrid`: `y_t` is the matrix product of the `(height, 1)` column
`_linspace(-1,1,height)` with a `(1, width)` row of ones, flattened row-major,
so flat entry `k` is `_linspace(-1,1,height)[k / width] * 1`. -/
def meshgridRow1 (height width : ℕ) (k : ℕ) : EFloat :=
  emul (linspaceF (-1) 1 height (k / width)) (.fin 1)

/-- Float-level embedding of the third row of the grid built by `_meshgrid`:
`T.ones_like(x_t_flat)`, the constant 1. -/
def meshgridRow2 (height width : ℕ) (k : ℕ) : EFloat :=
  .fin 1

/-- Exact-arithmetic embedding of `_linspace` (special.py lines 328-334):
element `k` is `k * ((stop - start) / (num - 1)) + start`.  Used on the
code paths where `num ≥ 2`, where no IEEE special value can arise. -/
def linspaceQ (start stop : ℚ) (num : ℕ) : ℕ → ℚ :=
  fun k => (k : ℚ) * ((stop - start) / ((num : ℚ) - 1)) + start

/-- Exact-arithmetic embedding of the x-coordinate row of `_meshgrid`
(flat entry `k`), matching `meshgridRow0`. -/
def meshgridX (height width : ℕ) (k : ℕ) : ℚ :=
  1 * linspaceQ (-1) 1 width (k % width)

/-- Exact-arithmetic embedding of the y-coordinate row of `_meshgrid`
(flat entry `k`), matching `meshgridRow1`. -/
def meshgridY (height width : ℕ) (k : ℕ) : ℚ :=
  linspaceQ (-1) 1 height (k / width) * 1

/-- Exact-arithmetic embedding of the ones row of `_meshgrid` (flat entry `k`). -/
def meshgridOnes (height width : ℕ) (k : ℕ) : ℚ :=
  1

/-- Embedding of `T.clip(v, lo, hi)` on `int64` values (Theano elementwise
clip: `lo` if `v < lo`, else `hi` if `v > hi`, else `v`). -/
def clip (v lo hi : ℤ) : ℤ :=
  if v < lo then lo else if hi < v then hi else v

/-- Embedding of `x0 = T.cast(T.floor(x), 'int64')` (special.py line 283):
the lower interpolation corner of a rescaled coordinate. -/
def corner0 (t : ℚ) : ℤ := ⌊t⌋

/-- Embedding of `x1 = x0 + 1` (special.py line 284): the upper interpolation
corner of a rescaled coordinate. -/
def corner1 (t : ℚ) : ℤ := ⌊t⌋ + 1

/-- Embedding of `T.clip(x0, 0, size - 1)` (special.py lines 289-292): the
lower corner clipped into image bounds along an axis of length `size`. -/
def corner0c (size : ℕ) (t : ℚ) : ℤ := clip (corner0 t) 0 ((size : ℤ) - 1)

/-- Embedding of `T.clip(x1, 0, size - 1)` (special.py lines 289-292): the
upper corner clipped into image bounds along an axis of length `size`. -/
def corner1c (size : ℕ) (t : ℚ) : ℤ := clip (corner1 t) 0 ((size : ℤ) - 1)

/-- Embedding of `wa = (x1_f - x) * (y1_f - y)` (special.py line 320), where
`x1_f`, `y1_f` are the float casts of the clipped corners. -/
def wa (W H : ℕ) (x y : ℚ) : ℚ :=
  ((corner1c W x : ℚ) - x) * ((corner1c H y : ℚ) - y)

/-- Embedding of `wb = (x1_f - x) * (y - y0_f)` (special.py line 321). -/
def wb (W H : ℕ) (x y : ℚ) : ℚ :=
  ((corner1c W x : ℚ) - x) * (y - (corner0c H y : ℚ))

/-- Embedding of `wc = (x - x0_f) * (y1_f - y)` (special.py line 322). -/
def wc (W H : ℕ) (x y : ℚ) : ℚ :=
  (x - (corner0c W x : ℚ)) * ((corner1c H y : ℚ) - y)

/-- Embedding of `wd = (x - x0_f) * (y - y0_f)` (special.py line 323). -/
def wd (W H : ℕ) (x y : ℚ) : ℚ :=
  (x - (corner0c W x : ℚ)) * (y - (corner0c H y : ℚ))

/-- Modelled from the spec (section 4.3 step 6), for comparison with `wa`:
the bilinear weight computed from the *unclamped* fractional offsets,
`wa = (x1 - x) * (y1 - y)` with `x1 = floor(x) + 1`, `y1 = floor(y) + 1`
taken before any clamping. -/
def waSpec (x y : ℚ) : ℚ :=
  ((corner1 x : ℚ) - x) * ((corner1 y : ℚ) - y)

/-- Modelled from the spec (section 4.3 step 6), for comparison with `wb`:
`wb = (x1 - x) * (y - y0)` from unclamped corners. -/
def wbSpec (x y : ℚ) : ℚ :=
  ((corner1 x : ℚ) - x) * (y - (corner0 y : ℚ))

/-- Modelled from the spec (section 4.3 step 6), for comparison with `wc`:
`wc = (x - x0) * (y1 - y)` from unclamped corners. -/
def wcSpec (x y : ℚ) : ℚ :=
  (x - (corner0 x : ℚ)) * ((corner1 y : ℚ) - y)

/-- Modelled from the spec (section 4.3 step 6), for comparison with `wd`:
`wd = (x - x0) * (y - y0)` from unclamped corners. -/
def wdSpec (x y : ℚ) : ℚ :=
  (x - (corner0 x : ℚ)) * (y - (corner0 y : ℚ))

/-- Embedding of `idx_a = base + y0 * dim2 + x0` (special.py lines 301-303)
with `dim2 = width` and clipped corners. -/
def idx_a (H W : ℕ) (base : ℤ) (x y : ℚ) : ℤ :=
  base + corner0c H y * (W : ℤ) + corner0c W x

/-- Embedding of `idx_b = base + y1 * dim2 + x0` (special.py lines 302-304). -/
def idx_b (H W : ℕ) (base : ℤ) (x y : ℚ) : ℤ :=
  base + corner1c H y * (W : ℤ) + corner0c W x

/-- Embedding of `idx_c = base + y0 * dim2 + x1` (special.py lines 301-305). -/
def idx_c (H W : ℕ) (base : ℤ) (x y : ℚ) : ℤ :=
  base + corner0c H y * (W : ℤ) + corner1c W x

/-- Embedding of `idx_d = base + y1 * dim2 + x1` (special.py lines 302-306). -/
def idx_d (H W : ℕ) (base : ℤ) (x y : ℚ) : ℤ :=
  base + corner1c H y * (W : ℤ) + corner1c W x

/-- Embedding of the value computed by `_interpolate` for one sample at one
channel (special.py lines 283-324), as a function of the already rescaled
pixel-space coordinates `x`, `y`: gather the four corner pixels from the
flattened image `imflat` and blend them with the bilinear weights
(`output = sum([wa*Ia, wb*Ib, wc*Ic, wd*Id], axis=0)`). -/
def interpolateCore (imflat : ℤ → ℕ → ℚ) (H W : ℕ) (base : ℤ) (x y : ℚ)
    (c : ℕ) : ℚ :=
  wa W H x y * imflat (idx_a H W base x y) c +
  wb W H x y * imflat (idx_b H W base x y) c +
  wc W H x y * imflat (idx_c H W base x y) c +
  wd W H x y * imflat (idx_d H W base x y) c

/-- Embedding of `_repeat(x, n_repeats)` (special.py lines 337-341): the
vector `x` with every element repeated `n_repeats` times (reshape to a
column, multiply by a row of ones, flatten row-major), so flat entry `i`
is `x[i / n_repeats]`. -/
def repeatV (x : ℕ → ℤ) (n_repeats : ℕ) : ℕ → ℤ :=
  fun i => x (i / n_repeats)

/-- Embedding of `base = _repeat(T.arange(num_batch) * dim1, out_height*out_width)`
(special.py lines 297-300) with `dim1 = width * height`: the per-sample flat
base offset at flat sample index `q`. -/
def baseAt (H W oh ow : ℕ) (q : ℕ) : ℤ :=
  repeatV (fun b => (b : ℤ) * ((W : ℤ) * (H : ℤ))) (oh * ow) q

/-- Embedding of the coordinate rescaling in `_interpolate` (special.py lines
280-281): `x = (x + 1) * size_f / 2`, mapping normalized `[-1, 1]` to pixel
space `[0, size]`. -/
def rescale (size : ℕ) (t : ℚ) : ℚ :=
  (t + 1) * (size : ℚ) / 2

/-- Embedding of `_interpolate(im, x, y, out_height, out_width)` (special.py
lines 270-325) at flat sample index `q` and channel `c`, where `imflat` is
the image flattened to `(batch*height*width, channels)` and `xs`, `ys` are
the flattened normalized sampling coordinates. -/
def interpolateAt (imflat : ℤ → ℕ → ℚ) (H W oh ow : ℕ) (xs ys : ℕ → ℚ)
    (q c : ℕ) : ℚ :=
  interpolateCore imflat H W (baseAt H W oh ow q)
    (rescale W (xs q)) (rescale H (ys q)) c

/-- Embedding of `theta = T.reshape(theta, (-1, 2, 3))` (special.py line 240):
entry `(r, cc)` of the 2x3 matrix of batch element `b`, from the flat
`(batch, 6)` parameter tensor. -/
def thetaMat (theta : ℕ → ℕ → ℚ) (b r cc : ℕ) : ℚ :=
  theta b (3 * r + cc)

/-- Embedding of `x_s_flat` (special.py lines 252-255): row 0 of
`theta[b] ⬝ grid`, flattened over `(batch, oh*ow)`, at flat index `q`. -/
def xsFlat (theta : ℕ → ℕ → ℚ) (oh ow : ℕ) (q : ℕ) : ℚ :=
  thetaMat theta (q / (oh * ow)) 0 0 * meshgridX oh ow (q % (oh * ow)) +
  thetaMat theta (q / (oh * ow)) 0 1 * meshgridY oh ow (q % (oh * ow)) +
  thetaMat theta (q / (oh * ow)) 0 2 * meshgridOnes oh ow (q % (oh * ow))

/-- Embedding of `y_s_flat` (special.py lines 252-256): row 1 of
`theta[b] ⬝ grid`, flattened over `(batch, oh*ow)`, at flat index `q`. -/
def ysFlat (theta : ℕ → ℕ → ℚ) (oh ow : ℕ) (q : ℕ) : ℚ :=
  thetaMat theta (q / (oh * ow)) 1 0 * meshgridX oh ow (q % (oh * ow)) +
  thetaMat theta (q / (oh * ow)) 1 1 * meshgridY oh ow (q % (oh * ow)) +
  thetaMat theta (q / (oh * ow)) 1 2 * meshgridOnes oh ow (q % (oh * ow))

/-- Embedding of `input.dimshuffle(0, 2, 3, 1)` followed by
`im.reshape((-1, channels))` (special.py lines 259 and 309): flat pixel
index `q` and channel `c` of the `(batch*height*width, channels)` view of a
`(batch, channels, height, width)` input. -/
def imFlatten (input : ℕ → ℕ → ℕ → ℕ → ℚ) (H W : ℕ) : ℤ → ℕ → ℚ :=
  fun q c => input (q.toNat / (H * W)) c (q.toNat % (H * W) / W) (q.toNat % W)

/-- Embedding of the float-to-integer cast used for the output sizes
(`T.cast(..., 'int64')` on line 245-246 and Python `int(...)` on line 230):
truncation toward zero. -/
def truncQ (q : ℚ) : ℤ :=
  if 0 ≤ q then ⌊q⌋ else -⌊-q⌋

/-- Embedding of `out_height = T.cast(height_f / downsample_factor, 'int64')`
(special.py lines 245-246): the output size along one spatial axis. -/
def outSize (s : ℕ) (d : ℚ) : ℤ :=
  truncQ ((s : ℚ) / d)

/-- Embedding of `TransformerLayer.get_output_shape_for` (special.py lines
226-230): keep the first two entries, divide the remaining spatial sizes by
the downsample factor with `int` truncation, keeping `None` entries. -/
def transformerOutputShapeFor (d : ℚ) (shp : List (Option ℤ)) : List (Option ℤ) :=
  shp.take 2 ++ (shp.drop 2).map (Option.map (fun s : ℤ => truncQ ((s : ℚ) / d)))

/-- Embedding of the shape validation in `TransformerLayer.__init__`
(special.py lines 216-224): first check `loc_shp[-1] != 6 or len(loc_shp) != 2`,
then `len(input_shp) != 4`; each failing check raises a `ValueError` (the
spec's `ShapeError`).  The last element of a rank-0 localization shape is
modelled with `getLastD` (CPython would raise `IndexError` there instead,
so theorems about this function assume a nonempty localization shape). -/
def transformerCheck (input_shp loc_shp : List (Option ℤ)) : Except String Unit :=
  if loc_shp.getLastD none ≠ some 6 ∨ loc_shp.length ≠ 2 then
    Except.error "The localization network must have output shape [num_batch, 6]"
  else if input_shp.length ≠ 4 then
    Except.error "The input network must have a 4-dimensional output shape"
  else
    Except.ok ()

/-- Embedding of `_transform(theta, input, downsample_factor)` (special.py
lines 238-267) at output position `(b, c, i, j)` of the channel-first output:
compute the output sizes, build the grid, apply the affine map, rescale, and
bilinearly interpolate the channel-last flattened input.  The batch and
channel counts only enter the source through reshapes that the functional
tensor representation renders implicit. -/
def transform (theta : ℕ → ℕ → ℚ) (input : ℕ → ℕ → ℕ → ℕ → ℚ)
    (H W : ℕ) (d : ℚ) (b c i j : ℕ) : ℚ :=
  interpolateAt (imFlatten input H W) H W (outSize H d).toNat (outSize W d).toNat
    (xsFlat theta (outSize H d).toNat (outSize W d).toNat)
    (ysFlat theta (outSize H d).toNat (outSize W d).toNat)
    (b * ((outSize H d).toNat * (outSize W d).toNat) + i * (outSize W d).toNat + j)
    c

/-- Minimal model of a layer for `InverseLayer`: a layer knows the output
shape of the layer feeding into it (`layer.input_layer`'s output shape, i.e.
its own input shape) and its own output shape. -/
structure LayerModel where
  inputShape : List (Option ℤ)
  outputShape : List (Option ℤ)

/-- Embedding of `InverseLayer.__init__` (special.py lines 147-150): the
merge inputs are `[incoming, layer, layer.input_layer]`, so the input shapes
seen by the layer are their three output shapes (a layer's input shape is
its input layer's output shape). -/
def inverseLayerInputShapes (incoming layer : LayerModel) : List (List (Option ℤ)) :=
  [incoming.outputShape, layer.outputShape, layer.inputShape]

/-- Embedding of `InverseLayer.get_output_shape_for` (special.py lines
152-153): `input_shapes[2]`. -/
def inverseGetOutputShapeFor (input_shapes : List (List (Option ℤ))) : List (Option ℤ) :=
  input_shapes.getD 2 []

/-- The identity affine parameters of the docstring example (special.py lines
200-203): `theta = [1, 0, 0, 0, 1, 0]` for every batch element. -/
def thetaId (b k : ℕ) : ℚ :=
  if k = 0 then 1 else if k = 4 then 1 else 0

/-- A concrete 1x1x3x3 test input holding the values 1..9 row-major. -/
def im3 (b c y x : ℕ) : ℚ :=
  ((3 * y + x + 1 : ℕ) : ℚ)

/-- A concrete constant flattened image, used to instantiate theorems that
quantify over images. -/
def imflatConst (q : ℤ) (c : ℕ) : ℚ := 37

/-! Helper lemmas about the `EFloat` operations on finite values. -/

theorem eadd_fin (a b : ℚ) : eadd (.fin a) (.fin b) = .fin (a + b) := rfl

theorem emul_fin (a b : ℚ) : emul (.fin a) (.fin b) = .fin (a * b) := rfl

theorem esub_fin (a b : ℚ) : esub (.fin a) (.fin b) = .fin (a - b) := by
  simp only [esub, eneg, eadd, sub_eq_add_neg]

theorem ediv_fin (a b : ℚ) (h : b ≠ 0) : ediv (.fin a) (.fin b) = .fin (a / b) := by
  simp only [ediv, if_neg h]

theorem linspaceF_eq_fin (n : ℕ) (hn : 2 ≤ n) (k : ℕ) :
    linspaceF (-1) 1 n k = .fin ((k : ℚ) * (2 / ((n : ℚ) - 1)) - 1) := by
  have h2 : (2 : ℚ) ≤ (n : ℚ) := by exact_mod_cast hn
  have h1 : ((n : ℚ) - 1) ≠ 0 := by intro h; linarith
  simp only [linspaceF, esub_fin, ediv_fin _ _ h1, emul_fin, eadd_fin]
  congr 1
  ring

theorem linspaceF_one_nan : linspaceF (-1) 1 1 0 = EFloat.nan := by
  have e1 : esub (.fin 1) (.fin (-1)) = .fin 2 := by rw [esub_fin]; norm_num
  have e2 : esub (.fin ((1 : ℕ) : ℚ)) (.fin 1) = .fin 0 := by rw [esub_fin]; norm_num
  have e3 : ediv (.fin 2) (.fin 0) = EFloat.pinf := by
    simp only [ediv]
    norm_num
  have e4 : emul (.fin ((0 : ℕ) : ℚ)) EFloat.pinf = EFloat.nan := by
    simp only [emul]
    norm_num
  simp only [linspaceF, e1, e2, e3, e4]
  rfl

/-- C6: evaluation of `GridGenerator.generate(1, 5)` (`_meshgrid(1, 5)`) under
float semantics.  The x-row is exactly `[-1, -1/2, 0, 1/2, 1]` and the third
row is all ones, but every entry of the y-row is `NaN`: `_linspace(-1, 1, 1)`
divides by `num - 1 = 0`, giving `+inf`, and `0 * inf` is `NaN` — contradicting
the source comment that `_meshgrid` is equivalent to `np.meshgrid` with
`np.linspace`, which yields the constant `-1` there. -/
theorem meshgrid_one_five_eval :
    meshgridRow0 1 5 0 = .fin (-1) ∧ meshgridRow0 1 5 1 = .fin (-1/2) ∧
    meshgridRow0 1 5 2 = .fin 0 ∧ meshgridRow0 1 5 3 = .fin (1/2) ∧
    meshgridRow0 1 5 4 = .fin 1 ∧
    meshgridRow1 1 5 0 = .nan ∧ meshgridRow1 1 5 1 = .nan ∧
    meshgridRow1 1 5 2 = .nan ∧ meshgridRow1 1 5 3 = .nan ∧
    meshgridRow1 1 5 4 = .nan ∧
    meshgridRow2 1 5 0 = .fin 1 ∧ meshgridRow2 1 5 1 = .fin 1 ∧
    meshgridRow2 1 5 2 = .fin 1 ∧ meshgridRow2 1 5 3 = .fin 1 ∧
    meshgridRow2 1 5 4 = .fin 1 := by
  have h5 : (2 : ℕ) ≤ 5 := by norm_num
  have hrow1 : ∀ k : ℕ, k < 5 → meshgridRow1 1 5 k = EFloat.nan := by
    intro k hk
    have hk5 : k / 5 = 0 := Nat.div_eq_of_lt hk
    rw [meshgridRow1, hk5, linspaceF_one_nan]
    rfl
  have hrow0 : ∀ k : ℕ, k < 5 →
      meshgridRow0 1 5 k = .fin ((k : ℚ) * (1/2) - 1) := by
    intro k hk
    have hk5 : k % 5 = k := Nat.mod_eq_of_lt hk
    rw [meshgridRow0, hk5, linspaceF_eq_fin 5 h5 k, emul_fin]
    congr 1
    norm_num
  refine ⟨?_, ?_, ?_, ?_, ?_,
    hrow1 0 (by norm_num), hrow1 1 (by norm_num), hrow1 2 (by norm_num),
    hrow1 3 (by norm_num), hrow1 4 (by norm_num),
    rfl, rfl, rfl, rfl, rfl⟩
  · rw [hrow0 0 (by norm_num)]; norm_num
  · rw [hrow0 1 (by norm_num)]; norm_num
  · rw [hrow0 2 (by norm_num)]; norm_num
  · rw [hrow0 3 (by norm_num)]; norm_num
  · rw [hrow0 4 (by norm_num)]; norm_num

/-- C7 (counterexample): for output size 1 along an axis, the first value of
`_linspace(-1, 1, 1)` is `NaN` (division by `num - 1 = 0`), not `-1`, so the
claim fails at `(h, w) = (1, 5)`. -/
theorem linspace_num_one_counterexample :
    linspaceF (-1) 1 1 0 = EFloat.nan ∧ EFloat.nan ≠ EFloat.fin (-1) := by
  exact ⟨linspaceF_one_nan, by simp⟩

/-- C7 (amended): for every requested size `n ≥ 2`, `_linspace(-1, 1, n)` has
first value exactly `-1`, last value exactly `1`, and its `n` points are
separated by `n - 1` equal steps of size `(1 - (-1)) / (n - 1)`. -/
theorem linspace_endpoints (n : ℕ) (hn : 2 ≤ n) :
    linspaceF (-1) 1 n 0 = .fin (-1) ∧
    linspaceF (-1) 1 n (n - 1) = .fin 1 ∧
    (∀ k, k + 1 < n →
      esub (linspaceF (-1) 1 n (k + 1)) (linspaceF (-1) 1 n k) =
        ediv (esub (.fin 1) (.fin (-1))) (esub (.fin (n : ℚ)) (.fin 1))) := by
  have h2 : (2 : ℚ) ≤ (n : ℚ) := by exact_mod_cast hn
  have h1 : ((n : ℚ) - 1) ≠ 0 := by intro h; linarith
  refine ⟨?_, ?_, ?_⟩
  · rw [linspaceF_eq_fin n hn 0]
    norm_num
  · rw [linspaceF_eq_fin n hn (n - 1)]
    congr 1
    have hc : ((n - 1 : ℕ) : ℚ) = (n : ℚ) - 1 := by
      have h1n : 1 ≤ n := by omega
      push_cast [h1n]
      ring
    rw [hc]
    field_simp
    norm_num
  · intro k hk
    rw [linspaceF_eq_fin n hn (k + 1), linspaceF_eq_fin n hn k, esub_fin,
      esub_fin, esub_fin, ediv_fin _ _ h1]
    congr 1
    push_cast
    field_simp
    ring

/-- Witness for `linspace_endpoints` at `n = 5`. -/
theorem linspace_endpoints_witness :
    2 ≤ 5 ∧
    (linspaceF (-1) 1 5 0 = .fin (-1) ∧
     linspaceF (-1) 1 5 (5 - 1) = .fin 1 ∧
     (∀ k, k + 1 < 5 →
       esub (linspaceF (-1) 1 5 (k + 1)) (linspaceF (-1) 1 5 k) =
         ediv (esub (.fin 1) (.fin (-1))) (esub (.fin ((5 : ℕ) : ℚ)) (.fin 1)))) :=
  ⟨by norm_num, linspace_endpoints 5 (by norm_num)⟩

/-- C2 (counterexample): at the rescaled coordinates `(x, y) = (5/2, 0)` in a
2x2 image, the code's weight `wa` is computed from the *clipped* corner
(`x1` clipped from 3 down to 1), giving `-3/2`, while the unclamped formula
of the claim gives `1/2`.  The weights are therefore not computed from the
unclamped fractional offsets. -/
theorem bilinear_weight_clamped_counterexample :
    wa 2 2 (5/2) 0 ≠ waSpec (5/2) 0 := by
  have hf : ⌊(5/2 : ℚ)⌋ = 2 := by
    rw [Int.floor_eq_iff]
    norm_num
  have hf0 : ⌊(0 : ℚ)⌋ = 0 := Int.floor_zero
  have c1x : corner1c 2 (5/2) = 1 := by
    rw [corner1c, corner1, hf]; decide
  have c1y : corner1c 2 0 = 1 := by
    rw [corner1c, corner1, hf0]; decide
  have s1x : corner1 (5/2 : ℚ) = 3 := by rw [corner1, hf]; decide
  have s1y : corner1 (0 : ℚ) = 1 := by rw [corner1, hf0]; decide
  rw [wa, waSpec, c1x, c1y, s1x, s1y]
  push_cast
  norm_num

/-- C2 (amended): the four bilinear weights are computed from the *clipped*
corner coordinates; they agree with the unclamped formula of the claim
exactly on coordinates where clipping alters no corner. -/
theorem bilinear_weights_unclamped_agreement (W H : ℕ) (x y : ℚ)
    (hx0 : corner0c W x = corner0 x) (hx1 : corner1c W x = corner1 x)
    (hy0 : corner0c H y = corner0 y) (hy1 : corner1c H y = corner1 y) :
    wa W H x y = waSpec x y ∧ wb W H x y = wbSpec x y ∧
    wc W H x y = wcSpec x y ∧ wd W H x y = wdSpec x y := by
  rw [wa, wb, wc, wd, waSpec, wbSpec, wcSpec, wdSpec, hx0, hx1, hy0, hy1]
  exact ⟨rfl, rfl, rfl, rfl⟩

/-- Witness for `bilinear_weights_unclamped_agreement` at `W = H = 2`,
`(x, y) = (1/2, 1/2)`, where no corner is clipped. -/
theorem bilinear_weights_unclamped_agreement_witness :
    corner0c 2 (1/2 : ℚ) = corner0 (1/2 : ℚ) ∧
    corner1c 2 (1/2 : ℚ) = corner1 (1/2 : ℚ) ∧
    (wa 2 2 (1/2) (1/2) = waSpec (1/2) (1/2) ∧
     wb 2 2 (1/2) (1/2) = wbSpec (1/2) (1/2) ∧
     wc 2 2 (1/2) (1/2) = wcSpec (1/2) (1/2) ∧
     wd 2 2 (1/2) (1/2) = wdSpec (1/2) (1/2)) := by
  have hf : ⌊(1/2 : ℚ)⌋ = 0 := by
    rw [Int.floor_eq_iff]
    norm_num
  have h0 : corner0c 2 (1/2 : ℚ) = corner0 (1/2 : ℚ) := by
    rw [corner0c, corner0, hf]; decide
  have h1 : corner1c 2 (1/2 : ℚ) = corner1 (1/2 : ℚ) := by
    rw [corner1c, corner1, hf]; decide
  exact ⟨h0, h1, bilinear_weights_unclamped_agreement 2 2 (1/2) (1/2) h0 h1 h0 h1⟩

/-- C4: on coordinates where clipping alters none of the four corners, the
four bilinear weights computed by `_interpolate` sum to exactly 1. -/
theorem bilinear_weights_sum_one (W H : ℕ) (x y : ℚ)
    (hx0 : corner0c W x = corner0 x) (hx1 : corner1c W x = corner1 x)
    (hy0 : corner0c H y = corner0 y) (hy1 : corner1c H y = corner1 y) :
    wa W H x y + wb W H x y + wc W H x y + wd W H x y = 1 := by
  rw [wa, wb, wc, wd, hx0, hx1, hy0, hy1]
  simp only [corner0, corner1]
  push_cast
  ring

/-- Witness for `bilinear_weights_sum_one` at `W = H = 2`,
`(x, y) = (1/2, 1/2)`. -/
theorem bilinear_weights_sum_one_witness :
    corner0c 2 (1/2 : ℚ) = corner0 (1/2 : ℚ) ∧
    corner1c 2 (1/2 : ℚ) = corner1 (1/2 : ℚ) ∧
    wa 2 2 (1/2) (1/2) + wb 2 2 (1/2) (1/2) + wc 2 2 (1/2) (1/2) +
      wd 2 2 (1/2) (1/2) = 1 := by
  have hf : ⌊(1/2 : ℚ)⌋ = 0 := by
    rw [Int.floor_eq_iff]
    norm_num
  have h0 : corner0c 2 (1/2 : ℚ) = corner0 (1/2 : ℚ) := by
    rw [corner0c, corner0, hf]; decide
  have h1 : corner1c 2 (1/2 : ℚ) = corner1 (1/2 : ℚ) := by
    rw [corner1c, corner1, hf]; decide
  exact ⟨h0, h1, bilinear_weights_sum_one 2 2 (1/2) (1/2) h0 h1 h0 h1⟩

/-- Bounds of the Theano clip: the result lies in `[lo, hi]` whenever
`lo ≤ hi`. -/
theorem clip_bounds (v lo hi : ℤ) (h : lo ≤ hi) :
    lo ≤ clip v lo hi ∧ clip v lo hi ≤ hi := by
  unfold clip
  split_ifs <;> omega

/-- C3: along either axis the two clipped corner indices coincide exactly
when the floor of the rescaled coordinate is at most `-1` or at least
`size - 1` (including a coordinate lying exactly on the last pixel), and in
that case the four bilinear weights sum to 0 and the interpolated value is
exactly 0, for every image. -/
theorem degenerate_corner_zero_output (W H : ℕ) (x y : ℚ)
    (imflat : ℤ → ℕ → ℚ) (base : ℤ) (c : ℕ) (hW : 0 < W) (hH : 0 < H) :
    (corner0c W x = corner1c W x ↔ ⌊x⌋ ≤ -1 ∨ (W : ℤ) - 1 ≤ ⌊x⌋) ∧
    (corner0c H y = corner1c H y ↔ ⌊y⌋ ≤ -1 ∨ (H : ℤ) - 1 ≤ ⌊y⌋) ∧
    ((corner0c W x = corner1c W x ∨ corner0c H y = corner1c H y) →
      wa W H x y + wb W H x y + wc W H x y + wd W H x y = 0 ∧
      interpolateCore imflat H W base x y c = 0) := by
  have hWZ : (1 : ℤ) ≤ (W : ℤ) := by exact_mod_cast hW
  have hHZ : (1 : ℤ) ≤ (H : ℤ) := by exact_mod_cast hH
  refine ⟨?_, ?_, ?_⟩
  · simp only [corner0c, corner1c, corner0, corner1, clip]
    generalize ⌊x⌋ = m
    split_ifs <;> omega
  · simp only [corner0c, corner1c, corner0, corner1, clip]
    generalize ⌊y⌋ = m
    split_ifs <;> omega
  · rintro (hx | hy)
    · have eca : idx_c H W base x y = idx_a H W base x y := by
        rw [idx_c, idx_a, hx]
      have edb : idx_d H W base x y = idx_b H W base x y := by
        rw [idx_d, idx_b, hx]
      constructor
      · rw [wa, wb, wc, wd, ← hx]
        ring
      · rw [interpolateCore, eca, edb, wa, wb, wc, wd, ← hx]
        ring
    · have eba : idx_b H W base x y = idx_a H W base x y := by
        rw [idx_b, idx_a, hy]
      have edc : idx_d H W base x y = idx_c H W base x y := by
        rw [idx_d, idx_c, hy]
      constructor
      · rw [wa, wb, wc, wd, ← hy]
        ring
      · rw [interpolateCore, eba, edc, wa, wb, wc, wd, ← hy]
        ring

/-- Witness for `degenerate_corner_zero_output` at `W = H = 2`, `x = 5`,
`y = 0`, a constant image, `base = 0`, channel 0. -/
theorem degenerate_corner_zero_output_witness :
    (0 : ℕ) < 2 ∧
    ((corner0c 2 (5 : ℚ) = corner1c 2 (5 : ℚ) ↔
        ⌊(5 : ℚ)⌋ ≤ -1 ∨ ((2 : ℕ) : ℤ) - 1 ≤ ⌊(5 : ℚ)⌋) ∧
     (corner0c 2 (0 : ℚ) = corner1c 2 (0 : ℚ) ↔
        ⌊(0 : ℚ)⌋ ≤ -1 ∨ ((2 : ℕ) : ℤ) - 1 ≤ ⌊(0 : ℚ)⌋) ∧
     ((corner0c 2 (5 : ℚ) = corner1c 2 (5 : ℚ) ∨
       corner0c 2 (0 : ℚ) = corner1c 2 (0 : ℚ)) →
       wa 2 2 5 0 + wb 2 2 5 0 + wc 2 2 5 0 + wd 2 2 5 0 = 0 ∧
       interpolateCore imflatConst 2 2 0 5 0 0 = 0)) :=
  ⟨by norm_num,
   degenerate_corner_zero_output 2 2 5 0 imflatConst 0 0 (by norm_num) (by norm_num)⟩

/-- Bound for a flat gather index `b' * (W*H) + yc * W + xc` built from a
batch offset and clipped row/column corners. -/
theorem flat_index_bound (B H W : ℕ) (b' yc xc : ℤ)
    (hb0 : 0 ≤ b') (hb1 : b' ≤ (B : ℤ) - 1)
    (hy0 : 0 ≤ yc) (hy1 : yc ≤ (H : ℤ) - 1)
    (hx0 : 0 ≤ xc) (hx1 : xc ≤ (W : ℤ) - 1) :
    0 ≤ b' * ((W : ℤ) * (H : ℤ)) + yc * (W : ℤ) + xc ∧
    b' * ((W : ℤ) * (H : ℤ)) + yc * (W : ℤ) + xc ≤
      (B : ℤ) * (H : ℤ) * (W : ℤ) - 1 := by
  have hWn : (0 : ℤ) ≤ (W : ℤ) := Int.natCast_nonneg W
  have hHn : (0 : ℤ) ≤ (H : ℤ) := Int.natCast_nonneg H
  constructor
  · have t1 : 0 ≤ b' * ((W : ℤ) * (H : ℤ)) := mul_nonneg hb0 (mul_nonneg hWn hHn)
    have t2 : 0 ≤ yc * (W : ℤ) := mul_nonneg hy0 hWn
    linarith
  · have e1 : b' * ((W : ℤ) * (H : ℤ)) ≤ ((B : ℤ) - 1) * ((W : ℤ) * (H : ℤ)) :=
      mul_le_mul_of_nonneg_right hb1 (mul_nonneg hWn hHn)
    have e2 : yc * (W : ℤ) ≤ ((H : ℤ) - 1) * (W : ℤ) :=
      mul_le_mul_of_nonneg_right hy1 hWn
    have e3 : ((B : ℤ) - 1) * ((W : ℤ) * (H : ℤ)) + ((H : ℤ) - 1) * (W : ℤ) +
        ((W : ℤ) - 1) = (B : ℤ) * (H : ℤ) * (W : ℤ) - 1 := by ring
    linarith

/-- C5: for every image with positive batch, height and width, every output
grid size and every pair of (arbitrary) sampling coordinates, each of the four
flat gather indices `idx_a`, `idx_b`, `idx_c`, `idx_d` computed by
`_interpolate` at a flat sample position `q < batch * out_height * out_width`
lies within `[0, batch*height*width - 1]`: the clipped corners never index out
of bounds or wrap around. -/
theorem gather_indices_in_bounds (B H W oh ow q : ℕ) (x y : ℚ)
    (hB : 0 < B) (hH : 0 < H) (hW : 0 < W) (hq : q < B * (oh * ow)) :
    (0 ≤ idx_a H W (baseAt H W oh ow q) x y ∧
      idx_a H W (baseAt H W oh ow q) x y ≤ (B : ℤ) * (H : ℤ) * (W : ℤ) - 1) ∧
    (0 ≤ idx_b H W (baseAt H W oh ow q) x y ∧
      idx_b H W (baseAt H W oh ow q) x y ≤ (B : ℤ) * (H : ℤ) * (W : ℤ) - 1) ∧
    (0 ≤ idx_c H W (baseAt H W oh ow q) x y ∧
      idx_c H W (baseAt H W oh ow q) x y ≤ (B : ℤ) * (H : ℤ) * (W : ℤ) - 1) ∧
    (0 ≤ idx_d H W (baseAt H W oh ow q) x y ∧
      idx_d H W (baseAt H W oh ow q) x y ≤ (B : ℤ) * (H : ℤ) * (W : ℤ) - 1) := by
  have hdiv : q / (oh * ow) < B := by
    rcases Nat.eq_zero_or_pos (oh * ow) with h0 | hpos
    · rw [h0, Nat.mul_zero] at hq; omega
    · exact Nat.div_lt_of_lt_mul (by rwa [mul_comm] at hq)
  have hbase : baseAt H W oh ow q =
      ((q / (oh * ow) : ℕ) : ℤ) * ((W : ℤ) * (H : ℤ)) := rfl
  have hb0 : (0 : ℤ) ≤ ((q / (oh * ow) : ℕ) : ℤ) := Int.natCast_nonneg _
  have hb1 : ((q / (oh * ow) : ℕ) : ℤ) ≤ (B : ℤ) - 1 := by
    have : ((q / (oh * ow) : ℕ) : ℤ) < (B : ℤ) := by exact_mod_cast hdiv
    omega
  have hWZ : (0 : ℤ) ≤ (W : ℤ) - 1 := by
    have : (1 : ℤ) ≤ (W : ℤ) := by exact_mod_cast hW
    omega
  have hHZ : (0 : ℤ) ≤ (H : ℤ) - 1 := by
    have : (1 : ℤ) ≤ (H : ℤ) := by exact_mod_cast hH
    omega
  have hx0 := clip_bounds (corner0 x) 0 ((W : ℤ) - 1) hWZ
  have hx1 := clip_bounds (corner1 x) 0 ((W : ℤ) - 1) hWZ
  have hy0 := clip_bounds (corner0 y) 0 ((H : ℤ) - 1) hHZ
  have hy1 := clip_bounds (corner1 y) 0 ((H : ℤ) - 1) hHZ
  refine ⟨?_, ?_, ?_, ?_⟩
  · rw [idx_a, hbase, corner0c, corner0c]
    exact flat_index_bound B H W _ _ _ hb0 hb1 hy0.1 hy0.2 hx0.1 hx0.2
  · rw [idx_b, hbase, corner1c, corner0c]
    exact flat_index_bound B H W _ _ _ hb0 hb1 hy1.1 hy1.2 hx0.1 hx0.2
  · rw [idx_c, hbase, corner0c, corner1c]
    exact flat_index_bound B H W _ _ _ hb0 hb1 hy0.1 hy0.2 hx1.1 hx1.2
  · rw [idx_d, hbase, corner1c, corner1c]
    exact flat_index_bound B H W _ _ _ hb0 hb1 hy1.1 hy1.2 hx1.1 hx1.2

/-- Witness for `gather_indices_in_bounds` at a 1x1x1 image, 1x1 output grid,
sample 0, coordinates far outside the valid range. -/
theorem gather_indices_in_bounds_witness :
    (0 : ℕ) < 1 ∧ (0 : ℕ) < 1 * (1 * 1) ∧
    ((0 ≤ idx_a 1 1 (baseAt 1 1 1 1 0) 100 (-100) ∧
       idx_a 1 1 (baseAt 1 1 1 1 0) 100 (-100) ≤
         ((1 : ℕ) : ℤ) * ((1 : ℕ) : ℤ) * ((1 : ℕ) : ℤ) - 1) ∧
     (0 ≤ idx_b 1 1 (baseAt 1 1 1 1 0) 100 (-100) ∧
       idx_b 1 1 (baseAt 1 1 1 1 0) 100 (-100) ≤
         ((1 : ℕ) : ℤ) * ((1 : ℕ) : ℤ) * ((1 : ℕ) : ℤ) - 1) ∧
     (0 ≤ idx_c 1 1 (baseAt 1 1 1 1 0) 100 (-100) ∧
       idx_c 1 1 (baseAt 1 1 1 1 0) 100 (-100) ≤
         ((1 : ℕ) : ℤ) * ((1 : ℕ) : ℤ) * ((1 : ℕ) : ℤ) - 1) ∧
     (0 ≤ idx_d 1 1 (baseAt 1 1 1 1 0) 100 (-100) ∧
       idx_d 1 1 (baseAt 1 1 1 1 0) 100 (-100) ≤
         ((1 : ℕ) : ℤ) * ((1 : ℕ) : ℤ) * ((1 : ℕ) : ℤ) - 1)) :=
  ⟨by norm_num, by norm_num,
   gather_indices_in_bounds 1 1 1 1 1 0 100 (-100)
     (by norm_num) (by norm_num) (by norm_num) (by norm_num)⟩

/-- C8: for a nonempty localization output shape, construction fails exactly
when the localization shape does not have trailing dimension 6 and rank 2 or
the input shape does not have rank 4, and succeeds otherwise.  (The
nonemptiness assumption marks the model boundary: for a rank-0 localization
shape CPython would raise `IndexError` from `loc_shp[-1]` rather than the
`ValueError` standing for the spec's `ShapeError`.) -/
theorem transformer_shape_validation (input_shp loc_shp : List (Option ℤ))
    (hne : loc_shp ≠ []) :
    ((∃ msg, transformerCheck input_shp loc_shp = Except.error msg) ↔
      (¬(loc_shp.getLastD none = some 6 ∧ loc_shp.length = 2) ∨
        input_shp.length ≠ 4)) ∧
    (transformerCheck input_shp loc_shp = Except.ok () ↔
      (loc_shp.getLastD none = some 6 ∧ loc_shp.length = 2 ∧
        input_shp.length = 4)) := by
  rw [transformerCheck]
  split_ifs with h1 h2
  · refine ⟨⟨fun _ => ?_, fun _ => ⟨_, rfl⟩⟩, ⟨fun h => ?_, fun h => ?_⟩⟩
    · tauto
    · exact absurd h (by simp)
    · rcases h1 with h' | h'
      · exact absurd h.1 h'
      · exact absurd h.2.1 h'
  · refine ⟨⟨fun _ => ?_, fun _ => ⟨_, rfl⟩⟩, ⟨fun h => ?_, fun h => ?_⟩⟩
    · tauto
    · exact absurd h (by simp)
    · exact absurd h.2.2 h2
  · refine ⟨⟨fun h => ?_, fun h => ?_⟩, ⟨fun _ => ?_, fun _ => rfl⟩⟩
    · rcases h with ⟨msg, hmsg⟩
      exact absurd hmsg (by simp)
    · push_neg at h1 h2
      rcases h with h | h
      · exact absurd ⟨h1.1, h1.2⟩ h
      · exact absurd h2 h
    · push_neg at h1 h2
      exact ⟨h1.1, h1.2, h2⟩

/-- Witness for `transformer_shape_validation` on a valid pair of shapes. -/
theorem transformer_shape_validation_witness :
    ([none, some 6] : List (Option ℤ)) ≠ [] ∧
    (((∃ msg, transformerCheck [none, none, some 3, some 4] [none, some 6] =
        Except.error msg) ↔
      (¬(([none, some 6] : List (Option ℤ)).getLastD none = some 6 ∧
          ([none, some 6] : List (Option ℤ)).length = 2) ∨
        ([none, none, some 3, some 4] : List (Option ℤ)).length ≠ 4)) ∧
     (transformerCheck [none, none, some 3, some 4] [none, some 6] =
        Except.ok () ↔
      (([none, some 6] : List (Option ℤ)).getLastD none = some 6 ∧
        ([none, some 6] : List (Option ℤ)).length = 2 ∧
        ([none, none, some 3, some 4] : List (Option ℤ)).length = 4))) :=
  ⟨by simp, transformer_shape_validation [none, none, some 3, some 4]
    [none, some 6] (by simp)⟩

/-- C9: for positive downsample factor `d`, the output spatial sizes computed
at runtime by `_transform` and statically by
`TransformerLayer.get_output_shape_for` both equal the floors of
`height / d` and `width / d` (the truncation toward zero agrees with the
floor because the quotients are nonnegative). -/
theorem output_size_is_floor (H W : ℕ) (d : ℚ) (hd : 0 < d) (b c : Option ℤ) :
    outSize H d = ⌊(H : ℚ) / d⌋ ∧ outSize W d = ⌊(W : ℚ) / d⌋ ∧
    transformerOutputShapeFor d [b, c, some (H : ℤ), some (W : ℤ)] =
      [b, c, some ⌊(H : ℚ) / d⌋, some ⌊(W : ℚ) / d⌋] := by
  have e : ∀ n : ℕ, truncQ (((n : ℤ) : ℚ) / d) = ⌊(n : ℚ) / d⌋ := by
    intro n
    have hnn : (0 : ℚ) ≤ ((n : ℤ) : ℚ) / d :=
      div_nonneg (by exact_mod_cast Int.natCast_nonneg n) hd.le
    rw [truncQ, if_pos hnn]
    norm_num
  have eH : outSize H d = ⌊(H : ℚ) / d⌋ := by
    rw [outSize, truncQ, if_pos (div_nonneg (Nat.cast_nonneg H) hd.le)]
  have eW : outSize W d = ⌊(W : ℚ) / d⌋ := by
    rw [outSize, truncQ, if_pos (div_nonneg (Nat.cast_nonneg W) hd.le)]
  refine ⟨eH, eW, ?_⟩
  simp only [transformerOutputShapeFor, List.take, List.drop, List.map,
    Option.map_some, Option.map]
  rw [e H, e W]
  rfl

/-- Witness for `output_size_is_floor` at `H = 5`, `W = 4`, `d = 2`: the
output spatial size is `(floor(5/2), floor(4/2))`. -/
theorem output_size_is_floor_witness :
    (0 : ℚ) < 2 ∧
    (outSize 5 2 = ⌊((5 : ℕ) : ℚ) / 2⌋ ∧ outSize 4 2 = ⌊((4 : ℕ) : ℚ) / 2⌋ ∧
     transformerOutputShapeFor 2 [none, some 3, some ((5 : ℕ) : ℤ), some ((4 : ℕ) : ℤ)] =
       [none, some 3, some ⌊((5 : ℕ) : ℚ) / 2⌋, some ⌊((4 : ℕ) : ℚ) / 2⌋]) :=
  ⟨by norm_num, output_size_is_floor 5 4 2 (by norm_num) none (some 3)⟩

/-- C10: the output shape of an `InverseLayer` is the third of its merged
input shapes, which is the inverted layer's input shape — for every pair of
layers and all shapes. -/
theorem inverse_layer_output_shape (incoming layer : LayerModel) :
    inverseGetOutputShapeFor (inverseLayerInputShapes incoming layer) =
      layer.inputShape := rfl

/-- C1: evaluating `_transform` with the identity affine parameters of the
docstring example and `downsample_factor = 1` on the 1x1x3x3 input holding
1..9: the output at the (interior) center pixel `(0,0,1,1)` is 7, the average
of the four input pixels 5, 6, 8, 9, while the input there is 5.  The
rescaling maps the center grid point to pixel coordinates `(3/2, 3/2)`
instead of the pixel center `(1, 1)`, so the identity parameters do not
reproduce the input. -/
theorem identity_theta_transform_eval :
    transform thetaId im3 3 3 1 0 0 1 1 = 7 ∧ im3 0 0 1 1 = 5 := by
  constructor
  · have h31 : (outSize 3 1).toNat = 3 := by
      rw [outSize, truncQ, if_pos (by norm_num)]
      norm_num
      decide
    rw [transform, h31]
    have hq : 0 * (3 * 3) + 1 * 3 + 1 = 4 := by norm_num
    rw [hq]
    have hxs : xsFlat thetaId 3 3 4 = 0 := by
      rw [xsFlat]
      norm_num [thetaMat, thetaId, meshgridX, meshgridY, meshgridOnes, linspaceQ]
    have hys : ysFlat thetaId 3 3 4 = 0 := by
      rw [ysFlat]
      norm_num [thetaMat, thetaId, meshgridX, meshgridY, meshgridOnes, linspaceQ]
    rw [interpolateAt, hxs, hys]
    have hresc : rescale 3 (0 : ℚ) = 3/2 := by
      rw [rescale]; norm_num
    have hbase : baseAt 3 3 3 3 4 = 0 := by
      rw [baseAt, repeatV]
      norm_num
    rw [hresc, hbase, interpolateCore]
    have hfl : ⌊(3/2 : ℚ)⌋ = 1 := by
      rw [Int.floor_eq_iff]
      norm_num
    have hc0 : corner0c 3 (3/2 : ℚ) = 1 := by
      rw [corner0c, corner0, hfl]; decide
    have hc1 : corner1c 3 (3/2 : ℚ) = 2 := by
      rw [corner1c, corner1, hfl]; decide
    have hwa : wa 3 3 (3/2) (3/2) = 1/4 := by
      rw [wa, hc1]; push_cast; norm_num
    have hwb : wb 3 3 (3/2) (3/2) = 1/4 := by
      rw [wb, hc1, hc0]; push_cast; norm_num
    have hwc : wc 3 3 (3/2) (3/2) = 1/4 := by
      rw [wc, hc1, hc0]; push_cast; norm_num
    have hwd : wd 3 3 (3/2) (3/2) = 1/4 := by
      rw [wd, hc0]; push_cast; norm_num
    have hia : idx_a 3 3 0 (3/2) (3/2) = 4 := by
      rw [idx_a, hc0]; decide
    have hib : idx_b 3 3 0 (3/2) (3/2) = 7 := by
      rw [idx_b, hc1, hc0]; decide
    have hic : idx_c 3 3 0 (3/2) (3/2) = 5 := by
      rw [idx_c, hc0, hc1]; decide
    have hid : idx_d 3 3 0 (3/2) (3/2) = 8 := by
      rw [idx_d, hc1]; decide
    have hva : imFlatten im3 3 3 4 0 = 5 := by
      have ht : Int.toNat 4 = 4 := rfl
      rw [imFlatten]
      norm_num [im3, ht]
    have hvb : imFlatten im3 3 3 7 0 = 8 := by
      have ht : Int.toNat 7 = 7 := rfl
      rw [imFlatten]
      norm_num [im3, ht]
    have hvc : imFlatten im3 3 3 5 0 = 6 := by
      have ht : Int.toNat 5 = 5 := rfl
      rw [imFlatten]
      norm_num [im3, ht]
    have hvd : imFlatten im3 3 3 8 0 = 9 := by
      have ht : Int.toNat 8 = 8 := rfl
      rw [imFlatten]
      norm_num [im3, ht]
    rw [hwa, hwb, hwc, hwd, hia, hib, hic, hid, hva, hvb, hvc, hvd]
    norm_num
  · rw [im3]
    norm_num
